import Mathlib

/-!
Verification of the masking routine and training/evaluation logic of the
collective-scene-completion repository (src/models/acgan-modified/main.py).

The masking routine walks an agent randomly over a 28x28 grid and keeps
visible only the pixels covered by clipped 11x11 squares around the walk
positions; everything else is zeroed.  Randomness is modelled by passing
the drawn start position and the drawn step directions explicitly.
-/

/-- Module constant RANDOM_WALK_LENGTH (main.py line 285). -/
def RANDOM_WALK_LENGTH : ℕ := 40

/-- Module constant VISIBLE_RADIUS (main.py line 286). -/
def VISIBLE_RADIUS : ℕ := 5

/-- A 28x28 grayscale image with rational pixel values. -/
abbrev Img28 := Fin 28 → Fin 28 → ℚ

/-- One step of the random walk (main.py lines 307-314): direction 0
decrements the row, 1 increments the column, 2 increments the row,
3 decrements the column; any other value leaves the position unchanged. -/
def stepMove (p : ℤ × ℤ) (d : ℕ) : ℤ × ℤ :=
  if d = 0 then (p.1 - 1, p.2)
  else if d = 1 then (p.1, p.2 + 1)
  else if d = 2 then (p.1 + 1, p.2)
  else if d = 3 then (p.1, p.2 - 1)
  else p

/-- Whether cell (x, y) lies in the square of side 2*VISIBLE_RADIUS+1
centred at the agent position p (the ranges of the two loops at
main.py lines 317-318). -/
def visibleB (p : ℤ × ℤ) (x y : ℤ) : Bool :=
  decide (p.1 - (VISIBLE_RADIUS : ℤ) ≤ x) && decide (x ≤ p.1 + (VISIBLE_RADIUS : ℤ)) &&
  decide (p.2 - (VISIBLE_RADIUS : ℤ) ≤ y) && decide (y ≤ p.2 + (VISIBLE_RADIUS : ℤ))

/-- The mask-array update after one step (main.py lines 317-320): every grid
cell in the visibility square of the agent is set to 1; the bounds check
0 <= x < 28 and 0 <= y < 28 of the source is the restriction to Fin 28. -/
def markVisible (p : ℤ × ℤ) (m : Fin 28 → Fin 28 → ℚ) : Fin 28 → Fin 28 → ℚ :=
  fun x y => if visibleB p (x : ℤ) (y : ℤ) then 1 else m x y

/-- The main loop of mask (main.py lines 305-320): for each drawn direction,
move the agent and then mark its visibility square in the mask array. -/
def walkLoop : (ℤ × ℤ) → List ℕ → (Fin 28 → Fin 28 → ℚ) → (ℤ × ℤ) × (Fin 28 → Fin 28 → ℚ)
  | p, [], m => (p, m)
  | p, d :: ds, m => walkLoop (stepMove p d) ds (markVisible (stepMove p d) m)

/-- The mask array built by mask, starting from np.zeros((28, 28))
(main.py line 304). -/
def maskGrid (start : ℤ × ℤ) (steps : List ℕ) : Fin 28 → Fin 28 → ℚ :=
  (walkLoop start steps (fun _ _ => 0)).2

/-- The mask function on a 28x28 image (main.py lines 289-332).  Its
walk_length and visible_radius parameters are part of the signature but the
body reads only the module constants, exactly as in the source; start is the
drawn initial position and steps the drawn list of directions. -/
def mask (image : Img28) ( walk_length : ℕ) ( visible_radius : ℕ)
    (start : ℤ × ℤ) (steps : List ℕ) : Img28 :=
  fun x y => image x y * maskGrid start steps x y

/-- Positions visited by the agent after each step (not the start). -/
def walkPositions : (ℤ × ℤ) → List ℕ → List (ℤ × ℤ)
  | _, [] => []
  | p, d :: ds => stepMove p d :: walkPositions (stepMove p d) ds

/-- The visibility region: the union of the clipped 11x11 squares around the
walk positions, as a predicate on grid coordinates. -/
def inRegion (start : ℤ × ℤ) (steps : List ℕ) (x y : ℤ) : Bool :=
  (walkPositions start steps).any (fun q => visibleB q x y)

lemma walkLoop_snd (steps : List ℕ) : ∀ (p : ℤ × ℤ) (m : Fin 28 → Fin 28 → ℚ)
    (x y : Fin 28), (walkLoop p steps m).2 x y =
      if (walkPositions p steps).any (fun q => visibleB q (x : ℤ) (y : ℤ)) then 1 else m x y := by
  induction steps with
  | nil =>
    intro p m x y
    simp [walkLoop, walkPositions]
  | cons d ds ih =>
    intro p m x y
    show (walkLoop (stepMove p d) ds (markVisible (stepMove p d) m)).2 x y = _
    rw [ih]
    simp only [walkPositions, List.any_cons]
    by_cases h1 : (walkPositions (stepMove p d) ds).any (fun q => visibleB q (x : ℤ) (y : ℤ)) = true
    · simp [h1]
    · by_cases h2 : visibleB (stepMove p d) (x : ℤ) (y : ℤ) = true
      · simp [h1, h2, markVisible]
      · simp [h1, h2, markVisible]

lemma maskGrid_eq (start : ℤ × ℤ) (steps : List ℕ) (x y : Fin 28) :
    maskGrid start steps x y = if inRegion start steps (x : ℤ) (y : ℤ) then 1 else 0 := by
  unfold maskGrid inRegion
  rw [walkLoop_snd]

/-- C1: mask returns an image in which each pixel is either the original
pixel or zero: it keeps the original value exactly on the visibility region
(the union of the clipped 11x11 squares around the walk positions) and is
zero exactly outside it. -/
theorem mask_pixel_values (image : Img28) (wl vr : ℕ) (start : ℤ × ℤ)
    (steps : List ℕ) (x y : Fin 28) :
    mask image wl vr start steps x y =
      (if inRegion start steps (x : ℤ) (y : ℤ) then image x y else 0) ∧
    (mask image wl vr start steps x y = image x y ∨
      mask image wl vr start steps x y = 0) := by
  have h : mask image wl vr start steps x y =
      (if inRegion start steps (x : ℤ) (y : ℤ) then image x y else 0) := by
    unfold mask
    rw [maskGrid_eq]
    by_cases hb : inRegion start steps (x : ℤ) (y : ℤ) = true
    · simp [hb]
    · simp [hb]
  refine ⟨h, ?_⟩
  rw [h]
  by_cases hb : inRegion start steps (x : ℤ) (y : ℤ) = true
  · left; simp [hb]
  · right; simp [hb]

/-- The starting position of the walk has both coordinates drawn by
random.randint(7, 20), hence between 7 and 20 inclusive (main.py line 300). -/
def startOK (p : ℤ × ℤ) : Prop := 7 ≤ p.1 ∧ p.1 ≤ 20 ∧ 7 ≤ p.2 ∧ p.2 ≤ 20

/-- Modelled from the claim wording: one unit step of the walk, 0 decrements
the row, 1 increments the column, 2 increments the row, 3 decrements the
column. -/
def specMove (p : ℤ × ℤ) (d : ℕ) : ℤ × ℤ :=
  if d = 0 then (p.1 - 1, p.2)
  else if d = 1 then (p.1, p.2 + 1)
  else if d = 2 then (p.1 + 1, p.2)
  else if d = 3 then (p.1, p.2 - 1)
  else p

/-- Modelled from the claim wording: the agent position after the first k
steps of the walk. -/
def specPosAfter (start : ℤ × ℤ) (steps : List ℕ) (k : ℕ) : ℤ × ℤ :=
  (steps.take k).foldl specMove start

/-- Chebyshev distance between two grid points. -/
def chebyshevDist (p q : ℤ × ℤ) : ℤ := max |p.1 - q.1| |p.2 - q.2|

/-- Modelled from the claim wording: a cell is visible when, after some step
(not at the initial position), it lies within Chebyshev distance
VISIBLE_RADIUS of the agent; the restriction to the 28x28 grid is the
restriction of the coordinates. -/
def inRegionSpec (start : ℤ × ℤ) (steps : List ℕ) (x y : ℤ) : Prop :=
  ∃ k, k < RANDOM_WALK_LENGTH ∧
    chebyshevDist (specPosAfter start steps (k + 1)) (x, y) ≤ (VISIBLE_RADIUS : ℤ)

instance (start : ℤ × ℤ) (steps : List ℕ) (x y : ℤ) :
    Decidable (inRegionSpec start steps x y) :=
  decidable_of_iff
    (∃ k ∈ List.range RANDOM_WALK_LENGTH,
      chebyshevDist (specPosAfter start steps (k + 1)) (x, y) ≤ (VISIBLE_RADIUS : ℤ))
    (by simp [inRegionSpec, List.mem_range])

lemma specMove_eq_stepMove : specMove = stepMove := rfl

lemma walkPositions_mem (steps : List ℕ) : ∀ (p q : ℤ × ℤ),
    q ∈ walkPositions p steps ↔
      ∃ k, k < steps.length ∧ q = (steps.take (k + 1)).foldl stepMove p := by
  induction steps with
  | nil =>
    intro p q
    simp [walkPositions]
  | cons d ds ih =>
    intro p q
    simp only [walkPositions, List.mem_cons, List.length_cons]
    constructor
    · rintro (rfl | h)
      · exact ⟨0, Nat.succ_pos _, by simp⟩
      · obtain ⟨k, hk, hq⟩ := (ih (stepMove p d) q).mp h
        exact ⟨k + 1, by omega, by simpa using hq⟩
    · rintro ⟨k, hk, hq⟩
      cases k with
      | zero =>
        left
        simpa using hq
      | succ j =>
        right
        refine (ih (stepMove p d) q).mpr ⟨j, by omega, ?_⟩
        simpa using hq

lemma visibleB_iff_chebyshev (p : ℤ × ℤ) (x y : ℤ) :
    visibleB p x y = true ↔ chebyshevDist p (x, y) ≤ (VISIBLE_RADIUS : ℤ) := by
  simp only [visibleB, chebyshevDist, VISIBLE_RADIUS, Bool.and_eq_true, decide_eq_true_eq]
  rw [max_le_iff, abs_le, abs_le]
  omega

/-- C2: for a start drawn with both coordinates in 7..20 and a list of
exactly RANDOM_WALK_LENGTH drawn directions among 0..3, the mask array is 1
exactly on the cells that lie within Chebyshev distance VISIBLE_RADIUS of
the agent after some step (never at the initial position), and 0 elsewhere:
the visibility region is produced by the random walk as the claim
describes. -/
theorem region_is_random_walk (start : ℤ × ℤ) (steps : List ℕ)
    (hstart : startOK start) (hlen : steps.length = RANDOM_WALK_LENGTH)
    (hsteps : ∀ d ∈ steps, d ≤ 3) (x y : Fin 28) :
    maskGrid start steps x y =
      if inRegionSpec start steps (x : ℤ) (y : ℤ) then 1 else 0 := by
  rw [maskGrid_eq]
  have hiff : inRegion start steps (x : ℤ) (y : ℤ) = true ↔
      inRegionSpec start steps (x : ℤ) (y : ℤ) := by
    unfold inRegion inRegionSpec
    rw [List.any_eq_true]
    constructor
    · rintro ⟨q, hq, hvis⟩
      obtain ⟨k, hk, rfl⟩ := (walkPositions_mem steps start q).mp hq
      refine ⟨k, by omega, ?_⟩
      rw [specPosAfter, specMove_eq_stepMove]
      exact (visibleB_iff_chebyshev _ _ _).mp hvis
    · rintro ⟨k, hk, hd⟩
      refine ⟨(steps.take (k + 1)).foldl stepMove start, ?_, ?_⟩
      · exact (walkPositions_mem steps start _).mpr ⟨k, by omega, rfl⟩
      · rw [specPosAfter, specMove_eq_stepMove] at hd
        exact (visibleB_iff_chebyshev _ _ _).mpr hd
  by_cases hc : inRegionSpec start steps (x : ℤ) (y : ℤ)
  · rw [if_pos (hiff.mpr hc), if_pos hc]
  · rw [if_neg (fun hh => hc (hiff.mp hh)), if_neg hc]

/-- Witness for C2 at a concrete start, step list and cell. -/
theorem region_is_random_walk_witness :
    startOK (7, 7) ∧ (List.replicate 40 0).length = RANDOM_WALK_LENGTH ∧
    (∀ d ∈ List.replicate 40 0, d ≤ 3) ∧
    maskGrid (7, 7) (List.replicate 40 0) 0 0 =
      (if inRegionSpec (7, 7) (List.replicate 40 0) ((0 : Fin 28) : ℤ) ((0 : Fin 28) : ℤ)
        then 1 else 0) :=
  ⟨by unfold startOK; decide, by decide, by decide,
    region_is_random_walk (7, 7) (List.replicate 40 0) (by unfold startOK; decide)
      (by decide) (by decide) 0 0⟩

/-- C8: mask ignores its walk_length and visible_radius parameters; with the
same random draws it returns the same image as a call that passes the module
constants (the default argument values), whatever values are passed. -/
theorem mask_ignores_parameters (image : Img28) (wl vr : ℕ) (start : ℤ × ℤ)
    (steps : List ℕ) :
    mask image wl vr start steps = mask image RANDOM_WALK_LENGTH VISIBLE_RADIUS start steps := rfl

/-- The set of grid cells marked visible by the walk. -/
def regionFinset (start : ℤ × ℤ) (steps : List ℕ) : Finset (Fin 28 × Fin 28) :=
  Finset.univ.filter (fun q => inRegion start steps (q.1 : ℤ) (q.2 : ℤ) = true)

lemma stepMove_bounds (start : ℤ × ℤ) (d : ℕ) (hs : startOK start) :
    6 ≤ (stepMove start d).1 ∧ (stepMove start d).1 ≤ 21 ∧
    6 ≤ (stepMove start d).2 ∧ (stepMove start d).2 ≤ 21 := by
  obtain ⟨h1, h2, h3, h4⟩ := hs
  unfold stepMove
  split_ifs <;> refine ⟨?_, ?_, ?_, ?_⟩ <;> dsimp only <;> omega

lemma first_step_visible_in_region (start : ℤ × ℤ) (d : ℕ) (rest : List ℕ)
    (x y : ℤ) (h : visibleB (stepMove start d) x y = true) :
    inRegion start (d :: rest) x y = true := by
  unfold inRegion walkPositions
  rw [List.any_cons]
  simp [h]

lemma region_card_lower (start : ℤ × ℤ) (d : ℕ) (rest : List ℕ)
    (hs : startOK start) : 121 ≤ (regionFinset start (d :: rest)).card := by
  obtain ⟨hb1, hb2, hb3, hb4⟩ := stepMove_bounds start d hs
  have hcard : (Finset.univ : Finset (Fin 11 × Fin 11)).card = 121 := by
    simp [Finset.card_univ]
  rw [← hcard]
  refine Finset.card_le_card_of_injOn
    (fun ij => (⟨((stepMove start d).1 - 5 + (ij.1 : ℤ)).toNat % 28,
        Nat.mod_lt _ (by norm_num)⟩,
      ⟨((stepMove start d).2 - 5 + (ij.2 : ℤ)).toNat % 28,
        Nat.mod_lt _ (by norm_num)⟩)) ?_ ?_
  · rintro ⟨i, j⟩ -
    have hi : (i : ℤ) ≤ 10 := by
      have := i.isLt
      omega
    have hj : (j : ℤ) ≤ 10 := by
      have := j.isLt
      omega
    have hix : ((((stepMove start d).1 - 5 + (i : ℤ)).toNat % 28 : ℕ) : ℤ) =
        (stepMove start d).1 - 5 + (i : ℤ) := by
      have hi0 : (0 : ℤ) ≤ (i : ℤ) := Int.natCast_nonneg _
      omega
    have hjy : ((((stepMove start d).2 - 5 + (j : ℤ)).toNat % 28 : ℕ) : ℤ) =
        (stepMove start d).2 - 5 + (j : ℤ) := by
      have hj0 : (0 : ℤ) ≤ (j : ℤ) := Int.natCast_nonneg _
      omega
    refine Finset.mem_filter.mpr ⟨Finset.mem_univ _, ?_⟩
    apply first_step_visible_in_region
    unfold visibleB
    simp only [Bool.and_eq_true, decide_eq_true_eq, VISIBLE_RADIUS]
    have hi0 : (0 : ℤ) ≤ (i : ℤ) := Int.natCast_nonneg _
    have hj0 : (0 : ℤ) ≤ (j : ℤ) := Int.natCast_nonneg _
    refine ⟨⟨⟨?_, ?_⟩, ?_⟩, ?_⟩ <;> rw [Fin.val_mk] <;> omega
  · rintro ⟨i, j⟩ - ⟨i', j'⟩ - heq
    have h1 := congrArg (fun q => (q.1 : Fin 28).val) heq
    have h2 := congrArg (fun q => (q.2 : Fin 28).val) heq
    simp only at h1 h2
    have hi : (i : ℤ) ≤ 10 := by
      have := i.isLt
      omega
    have hi' : (i' : ℤ) ≤ 10 := by
      have := i'.isLt
      omega
    have hj : (j : ℤ) ≤ 10 := by
      have := j.isLt
      omega
    have hj' : (j' : ℤ) ≤ 10 := by
      have := j'.isLt
      omega
    have hi0 : (0 : ℤ) ≤ (i : ℤ) := Int.natCast_nonneg _
    have hi0' : (0 : ℤ) ≤ (i' : ℤ) := Int.natCast_nonneg _
    have hj0 : (0 : ℤ) ≤ (j : ℤ) := Int.natCast_nonneg _
    have hj0' : (0 : ℤ) ≤ (j' : ℤ) := Int.natCast_nonneg _
    have hii : (i : ℤ) = (i' : ℤ) := by omega
    have hjj : (j : ℤ) = (j' : ℤ) := by omega
    have : i = i' := by
      apply Fin.ext
      exact_mod_cast hii
    have : j = j' := by
      apply Fin.ext
      exact_mod_cast hjj
    subst this
    simp_all

/-- C9: with a start whose coordinates were drawn from 7..20, the agent lies
in the square [6, 21] x [6, 21] after the first step, so its full 11x11
visibility window is inside the grid: the visibility region has at least 121
cells and the masked image agrees with the input on the whole 11x11 block
around the position after the first step. -/
theorem mask_region_nonempty (image : Img28) (wl vr : ℕ) (start : ℤ × ℤ)
    (d : ℕ) (rest : List ℕ) (hs : startOK start) :
    (6 ≤ (stepMove start d).1 ∧ (stepMove start d).1 ≤ 21 ∧
      6 ≤ (stepMove start d).2 ∧ (stepMove start d).2 ≤ 21) ∧
    121 ≤ (regionFinset start (d :: rest)).card ∧
    (∀ x y : Fin 28,
      (stepMove start d).1 - 5 ≤ (x : ℤ) → (x : ℤ) ≤ (stepMove start d).1 + 5 →
      (stepMove start d).2 - 5 ≤ (y : ℤ) → (y : ℤ) ≤ (stepMove start d).2 + 5 →
      mask image wl vr start (d :: rest) x y = image x y) := by
  refine ⟨stepMove_bounds start d hs, region_card_lower start d rest hs, ?_⟩
  intro x y hx1 hx2 hy1 hy2
  have hvis : visibleB (stepMove start d) (x : ℤ) (y : ℤ) = true := by
    unfold visibleB
    simp only [Bool.and_eq_true, decide_eq_true_eq, VISIBLE_RADIUS]
    exact ⟨⟨⟨by omega, by omega⟩, by omega⟩, by omega⟩
  have hreg := first_step_visible_in_region start d rest (x : ℤ) (y : ℤ) hvis
  have h := (mask_pixel_values image wl vr start (d :: rest) x y).1
  rw [h, if_pos hreg]

/-- An all-ones test image. -/
def imgOne : Img28 := fun _ _ => 1

/-- Witness for C9 at a concrete image, start and step list. -/
theorem mask_region_nonempty_witness :
    startOK (7, 7) ∧
    ((6 ≤ (stepMove (7, 7) 0).1 ∧ (stepMove (7, 7) 0).1 ≤ 21 ∧
      6 ≤ (stepMove (7, 7) 0).2 ∧ (stepMove (7, 7) 0).2 ≤ 21) ∧
    121 ≤ (regionFinset (7, 7) [0]).card ∧
    (∀ x y : Fin 28,
      (stepMove (7, 7) 0).1 - 5 ≤ (x : ℤ) → (x : ℤ) ≤ (stepMove (7, 7) 0).1 + 5 →
      (stepMove (7, 7) 0).2 - 5 ≤ (y : ℤ) → (y : ℤ) ≤ (stepMove (7, 7) 0).2 + 5 →
      mask imgOne 40 5 (7, 7) [0] x y = imgOne x y)) :=
  ⟨by unfold startOK; decide,
    mask_region_nonempty imgOne 40 5 (7, 7) 0 [] (by unfold startOK; decide)⟩

/-- Failure modes of the entry checks of mask: the assert at main.py line 296
(AssertionError) and the channel slicing image[:, :, 0] at line 292, which
fails with IndexError when the last axis is empty. -/
inductive ShapeErr where
  | assertFail
  | indexOut
deriving DecidableEq

/-- Shape-level model of the entry of mask (main.py lines 291-296): a
3-dimensional array is sliced to its first channel, then the shape is
asserted to be (28, 28); the returned shape is the shape of the array the
body then works on (and, since the mask array is (28, 28) and np.multiply
is elementwise, also the shape of the returned masked image). -/
def maskShapeCheck : List ℕ → Except ShapeErr (List ℕ)
  | [a, b, c] =>
    if c = 0 then Except.error ShapeErr.indexOut
    else if a = 28 ∧ b = 28 then Except.ok [a, b]
    else Except.error ShapeErr.assertFail
  | s => if s = [28, 28] then Except.ok s else Except.error ShapeErr.assertFail

/-- C5: mask accepts only 28x28 images: a 2-dimensional input passes the
assertion exactly when its shape is (28, 28) and otherwise raises
AssertionError; a 3-dimensional input is reduced to its first channel and
the assertion then requires the remaining shape to be (28, 28). -/
theorem mask_shape_assertion :
    (∀ a b : ℕ, maskShapeCheck [a, b] = Except.ok [a, b] ↔ (a = 28 ∧ b = 28)) ∧
    (∀ a b : ℕ, ¬(a = 28 ∧ b = 28) →
      maskShapeCheck [a, b] = Except.error ShapeErr.assertFail) ∧
    maskShapeCheck [28, 28] = Except.ok [28, 28] ∧
    (∀ a b c : ℕ, 0 < c →
      ((maskShapeCheck [a, b, c] = Except.ok [a, b]) ↔ (a = 28 ∧ b = 28)) ∧
      (¬(a = 28 ∧ b = 28) →
        maskShapeCheck [a, b, c] = Except.error ShapeErr.assertFail)) := by
  refine ⟨?_, ?_, by rfl, ?_⟩
  · intro a b
    constructor
    · intro h
      by_contra hab
      simp only [maskShapeCheck] at h
      rw [if_neg] at h
      · exact Except.noConfusion h
      · intro hlist
        apply hab
        have h1 : a = 28 := by
          have := congrArg (fun l => l.headI) hlist
          simpa using this
        have h2 : b = 28 := by
          have := congrArg (fun l => l.tail.headI) hlist
          simpa using this
        exact ⟨h1, h2⟩
    · rintro ⟨rfl, rfl⟩
      rfl
  · intro a b hab
    simp only [maskShapeCheck]
    rw [if_neg]
    intro hlist
    apply hab
    have h1 : a = 28 := by
      have := congrArg (fun l => l.headI) hlist
      simpa using this
    have h2 : b = 28 := by
      have := congrArg (fun l => l.tail.headI) hlist
      simpa using this
    exact ⟨h1, h2⟩
  · intro a b c hc
    have hc0 : c ≠ 0 := by omega
    constructor
    · constructor
      · intro h
        by_contra hab
        simp only [maskShapeCheck, if_neg hc0, if_neg hab] at h
        exact Except.noConfusion h
      · rintro ⟨rfl, rfl⟩
        simp [maskShapeCheck, hc0]
    · intro hab
      simp [maskShapeCheck, hc0, hab]

/-- Witness for C5: a wrongly sized 2-dimensional input fails the assertion
and a 3-dimensional 28x28x4 input passes it. -/
theorem mask_shape_assertion_witness :
    ¬((27 : ℕ) = 28 ∧ (28 : ℕ) = 28) ∧ (0 : ℕ) < 4 ∧
    maskShapeCheck [27, 28] = Except.error ShapeErr.assertFail ∧
    maskShapeCheck [28, 28, 4] = Except.ok [28, 28] :=
  ⟨by decide, by decide, mask_shape_assertion.2.1 27 28 (by decide),
    (mask_shape_assertion.2.2.2 28 28 4 (by decide)).1.mpr (by decide)⟩

/-- C10: every successful run of the entry checks of mask hands the body a
28x28 array, so the masked image that is returned is 2-dimensional of shape
(28, 28); in particular a 28x28x1 batch image, as train passes, comes back
as (28, 28) with the channel axis dropped. -/
theorem mask_returns_shape_28x28 :
    (∀ (s r : List ℕ), maskShapeCheck s = Except.ok r → r = [28, 28]) ∧
    maskShapeCheck [28, 28, 1] = Except.ok [28, 28] := by
  constructor
  · intro s r h
    unfold maskShapeCheck at h
    split at h
    · split_ifs at h with hc hab
      all_goals first
        | exact Except.noConfusion h
        | (cases h; obtain ⟨rfl, rfl⟩ := hab; rfl)
    · split_ifs at h with hs
      all_goals first
        | exact Except.noConfusion h
        | (cases h; exact hs)
  · rfl

/-- Witness for C10: applied to the batch-image shape 28x28x1. -/
theorem mask_returns_shape_28x28_witness :
    maskShapeCheck [28, 28, 1] = Except.ok [28, 28] ∧ ([28, 28] : List ℕ) = [28, 28] :=
  ⟨mask_returns_shape_28x28.2,
    mask_returns_shape_28x28.1 [28, 28, 1] [28, 28] mask_returns_shape_28x28.2⟩

/-- np.argmax over a vector of 10 class probabilities: the first index
attaining the maximum (ties resolved to the earliest index, as numpy does). -/
def argmax10 (f : Fin 10 → ℚ) : Fin 10 :=
  (List.finRange 10).foldl (fun best i => if f best < f i then i else best) 0

/-- Evaluation state of the ACGAN object: the accuracy_scores and
recall_scores lists (main.py lines 72-73). -/
structure EvalState where
  accuracy_scores : List (ℚ × ℕ)
  recall_scores : List (List ℚ × ℕ)

/-- The test_masked_accuracy method (main.py lines 198-227), with the
discriminator class-probability output on the masked test set abstracted as
classifications and the true labels as y_test.  It computes the predicted
labels by argmax, the overall accuracy as np.sum(predicted == y) / len(y),
appends (accuracy, epoch), then for each class i selects the indices with
true label i, recomputes the argmax there, and records the ten per-class
recalls, appending (recalls, epoch).  Plot and file output are omitted. -/
def test_masked_accuracy (n : ℕ) (classifications : Fin n → Fin 10 → ℚ)
    (y_test : Fin n → Fin 10) (epoch : ℕ) (s : EvalState) : EvalState :=
  let predicted_labels : Fin n → Fin 10 := fun j => argmax10 (classifications j)
  let accuracy : ℚ :=
    (∑ j : Fin n, if predicted_labels j = y_test j then (1 : ℚ) else 0) / (n : ℚ)
  let recalls : List ℚ := (List.range 10).map (fun i =>
    (∑ j ∈ Finset.univ.filter (fun j : Fin n => ((y_test j : ℕ) = i)),
        if ((argmax10 (classifications j) : ℕ) = i) then (1 : ℚ) else 0) /
    ((Finset.univ.filter (fun j : Fin n => ((y_test j : ℕ) = i))).card : ℚ))
  { accuracy_scores := s.accuracy_scores ++ [(accuracy, epoch)],
    recall_scores := s.recall_scores ++ [(recalls, epoch)] }

/-- Symbolic references to the image batches handled in one training epoch:
the drawn real batch, its masked version, and the generated batch. -/
inductive BatchRef where
  | realImgs
  | maskedImgs
  | genImgs
deriving DecidableEq

/-- Symbolic reference to the class labels used by the training calls: both
discriminator calls and the combined call pass img_labels, the true labels
of the drawn batch. -/
inductive LabelsRef where
  | trueLabels
deriving DecidableEq

/-- The observable framework calls made by one epoch of train
(main.py lines 156-196). -/
inductive TrainEvent where
  | drawBatch (batch_size : ℕ)
  | maskBatch
  | genPredict (input : BatchRef)
  | discTrainOnBatch (imgs : BatchRef) (validityTarget : ℚ) (labels : LabelsRef)
  | avgDLoss
  | combinedTrainOnBatch (input : BatchRef) (validityTarget : ℚ) (labels : LabelsRef)
  | saveModelEv
  | sampleImagesEv (epoch : ℕ)
  | testAccEv (epoch : ℕ)
deriving DecidableEq

/-- The body of one iteration of the training loop, in source order
(main.py lines 162-196): draw a random batch, mask it, run the generator on
the masked batch, train the discriminator on the real batch with target
valid = 1 and on the generated batch with target fake = 0 (both with the
true labels), average the two losses, train the combined model on the
masked batch with target valid = 1 and the true labels, and at epochs
divisible by sample_interval save the model, sample images and run
test_masked_accuracy. -/
def epochBody (epoch batch_size sample_interval : ℕ) : List TrainEvent :=
  [TrainEvent.drawBatch batch_size, TrainEvent.maskBatch,
    TrainEvent.genPredict BatchRef.maskedImgs,
    TrainEvent.discTrainOnBatch BatchRef.realImgs 1 LabelsRef.trueLabels,
    TrainEvent.discTrainOnBatch BatchRef.genImgs 0 LabelsRef.trueLabels,
    TrainEvent.avgDLoss,
    TrainEvent.combinedTrainOnBatch BatchRef.maskedImgs 1 LabelsRef.trueLabels] ++
  (if epoch % sample_interval = 0 then
    [TrainEvent.saveModelEv, TrainEvent.sampleImagesEv epoch, TrainEvent.testAccEv epoch]
  else [])

/-- The full trace of train(epochs, batch_size, sample_interval): the loop
body for epochs 0, 1, ..., epochs - 1, in order. -/
def trainTrace : ℕ → ℕ → ℕ → List TrainEvent
  | 0, _, _ => []
  | e + 1, bs, si => trainTrace e bs si ++ epochBody e bs si

/-- The discriminator loss combination d_loss = 0.5 * np.add(d_loss_real,
d_loss_fake) (main.py line 178). -/
def dLoss (d_loss_real d_loss_fake : ℚ) : ℚ := (1 / 2) * (d_loss_real + d_loss_fake)

/-- The attributes set by ACGAN.__init__ that the claims refer to
(main.py lines 23-59): the input shape data and the fact that the
discriminator is frozen (trainable = False) before the combined model is
compiled. -/
structure ACGANModel where
  img_rows : ℕ
  img_cols : ℕ
  channels : ℕ
  num_classes : ℕ
  latent_dim : ℕ
  discTrainableInCombined : Bool

/-- ACGAN.__init__ (main.py lines 23-59). -/
def acganInit : ACGANModel :=
  { img_rows := 28, img_cols := 28, channels := 1, num_classes := 10,
    latent_dim := 100, discTrainableInCombined := false }

lemma trainTrace_decompose (bs si : ℕ) :
    ∀ epochs e, e < epochs → ∃ tail : List TrainEvent,
      trainTrace epochs bs si = trainTrace e bs si ++ epochBody e bs si ++ tail := by
  intro epochs
  induction epochs with
  | zero =>
    intro e he
    omega
  | succ m ih =>
    intro e he
    by_cases hm : e < m
    · obtain ⟨tail, htail⟩ := ih e hm
      refine ⟨tail ++ epochBody m bs si, ?_⟩
      show trainTrace m bs si ++ epochBody m bs si = _
      rw [htail]
      simp [List.append_assoc]
    · have : e = m := by omega
      subst this
      exact ⟨[], by simp [trainTrace]⟩

/-- C7: in every epoch of train the framework calls happen in the claimed
order: the batch is drawn, masked, fed to the generator, the discriminator
is trained on the real batch with validity target 1 and the true labels and
then on the generated batch with validity target 0 and the same labels, the
two losses are averaged with weight 0.5 each, and finally the combined model
(in which the discriminator is frozen) is trained on the masked batch with
validity target 1 and the true labels. -/
theorem train_epoch_order (epochs bs si e : ℕ) (he : e < epochs) :
    (∃ pre post : List TrainEvent,
      trainTrace epochs bs si = pre ++
        (TrainEvent.drawBatch bs :: TrainEvent.maskBatch ::
          TrainEvent.genPredict BatchRef.maskedImgs ::
          TrainEvent.discTrainOnBatch BatchRef.realImgs 1 LabelsRef.trueLabels ::
          TrainEvent.discTrainOnBatch BatchRef.genImgs 0 LabelsRef.trueLabels ::
          TrainEvent.avgDLoss ::
          TrainEvent.combinedTrainOnBatch BatchRef.maskedImgs 1 LabelsRef.trueLabels ::
          post)) ∧
    (∀ r f : ℚ, dLoss r f = (1 / 2) * r + (1 / 2) * f) ∧
    acganInit.discTrainableInCombined = false := by
  refine ⟨?_, fun r f => by unfold dLoss; ring, rfl⟩
  obtain ⟨tail, htail⟩ := trainTrace_decompose bs si epochs e he
  refine ⟨trainTrace e bs si,
    (if e % si = 0 then
      [TrainEvent.saveModelEv, TrainEvent.sampleImagesEv e, TrainEvent.testAccEv e]
    else []) ++ tail, ?_⟩
  rw [htail]
  unfold epochBody
  simp [List.append_assoc]

/-- Witness for C7 at one epoch of a one-epoch run. -/
theorem train_epoch_order_witness :
    (0 : ℕ) < 1 ∧
    ((∃ pre post : List TrainEvent,
      trainTrace 1 32 200 = pre ++
        (TrainEvent.drawBatch 32 :: TrainEvent.maskBatch ::
          TrainEvent.genPredict BatchRef.maskedImgs ::
          TrainEvent.discTrainOnBatch BatchRef.realImgs 1 LabelsRef.trueLabels ::
          TrainEvent.discTrainOnBatch BatchRef.genImgs 0 LabelsRef.trueLabels ::
          TrainEvent.avgDLoss ::
          TrainEvent.combinedTrainOnBatch BatchRef.maskedImgs 1 LabelsRef.trueLabels ::
          post)) ∧
    (∀ r f : ℚ, dLoss r f = (1 / 2) * r + (1 / 2) * f) ∧
    acganInit.discTrainableInCombined = false) :=
  ⟨Nat.one_pos, train_epoch_order 1 32 200 0 Nat.one_pos⟩

lemma testAcc_mem_epochBody (k e bs si : ℕ) :
    TrainEvent.testAccEv k ∈ epochBody e bs si ↔ (k = e ∧ e % si = 0) := by
  unfold epochBody
  by_cases h : e % si = 0
  · simp [h]
  · simp [h]

lemma testAcc_mem_trainTrace (k bs si : ℕ) : ∀ epochs,
    (TrainEvent.testAccEv k ∈ trainTrace epochs bs si ↔ (k < epochs ∧ k % si = 0)) := by
  intro epochs
  induction epochs with
  | zero => simp [trainTrace]
  | succ m ih =>
    show TrainEvent.testAccEv k ∈ trainTrace m bs si ++ epochBody m bs si ↔ _
    rw [List.mem_append, ih, testAcc_mem_epochBody]
    constructor
    · rintro (⟨h1, h2⟩ | ⟨rfl, h2⟩)
      · exact ⟨by omega, h2⟩
      · exact ⟨by omega, h2⟩
    · rintro ⟨h1, h2⟩
      by_cases hm : k < m
      · exact Or.inl ⟨hm, h2⟩
      · have : k = m := by omega
        subst this
        exact Or.inr ⟨rfl, h2⟩

/-- C3: during train, test_masked_accuracy runs exactly at the epochs e with
e % sample_interval = 0, and each run appends to accuracy_scores the pair of
the fraction of masked test images whose argmax-predicted label equals the
true label and the epoch number. -/
theorem accuracy_scores_correct (epochs bs si : ℕ) (n : ℕ)
    (classifications : Fin n → Fin 10 → ℚ) (y_test : Fin n → Fin 10)
    (epoch : ℕ) (s : EvalState) :
    (∀ e : ℕ, TrainEvent.testAccEv e ∈ trainTrace epochs bs si ↔
      (e < epochs ∧ e % si = 0)) ∧
    (test_masked_accuracy n classifications y_test epoch s).accuracy_scores =
      s.accuracy_scores ++
        [((((Finset.univ.filter
            (fun j : Fin n => argmax10 (classifications j) = y_test j)).card : ℚ) /
          (n : ℚ), epoch))] := by
  refine ⟨fun e => testAcc_mem_trainTrace e bs si epochs, ?_⟩
  unfold test_masked_accuracy
  simp only [EvalState.mk.injEq]
  congr 2
  rw [Finset.sum_boole]

/-- C4: each run of test_masked_accuracy appends to recall_scores the pair of
the epoch number with the list of the ten per-class recalls, where the
recall of class i is the number of masked test images of true label i whose
argmax-predicted label is i divided by the number of test images of true
label i. -/
theorem recall_scores_correct (n : ℕ) (classifications : Fin n → Fin 10 → ℚ)
    (y_test : Fin n → Fin 10) (epoch : ℕ) (s : EvalState) :
    (test_masked_accuracy n classifications y_test epoch s).recall_scores =
      s.recall_scores ++
        [(((List.range 10).map (fun i =>
          ((Finset.univ.filter (fun j : Fin n =>
              (y_test j : ℕ) = i ∧ (argmax10 (classifications j) : ℕ) = i)).card : ℚ) /
          ((Finset.univ.filter (fun j : Fin n => (y_test j : ℕ) = i)).card : ℚ)),
          epoch))] := by
  unfold test_masked_accuracy
  simp only [EvalState.mk.injEq]
  congr 2
  congr 1
  apply List.map_congr_left
  intro i _
  rw [Finset.sum_boole, Finset.filter_filter]

/-- The number of digit classes, self.num_classes = 10 (main.py line 29). -/
def num_classes : ℕ := 10

/-- A single 28x28x1 input image of the discriminator, real-valued. -/
abbrev ImgTensor := Fin 28 → Fin 28 → Fin 1 → ℝ

/-- The sigmoid activation of the validity head (main.py line 136). -/
noncomputable def sigmoid (x : ℝ) : ℝ := 1 / (1 + Real.exp (-x))

/-- The softmax activation of the label head (main.py line 137). -/
noncomputable def softmax {m : ℕ} (z : Fin m → ℝ) : Fin m → ℝ :=
  fun i => Real.exp (z i) / ∑ j, Real.exp (z j)

/-- The discriminator of build_discriminator (main.py lines 107-139): the
convolutional feature extractor is framework code, abstracted as an
arbitrary map from the image to a feature vector; on top of it sit the two
Dense heads of lines 136-137, a 1-unit sigmoid validity output and a
num_classes-unit softmax label output. -/
structure Discriminator (featDim : ℕ) where
  convFeatures : ImgTensor → Fin featDim → ℝ
  wValidity : Fin featDim → ℝ
  bValidity : ℝ
  wLabel : Fin num_classes → Fin featDim → ℝ
  bLabel : Fin num_classes → ℝ

/-- Forward pass of the discriminator on a single image: validity score and
class-probability vector. -/
noncomputable def discriminatorForward {featDim : ℕ} (D : Discriminator featDim)
    (img : ImgTensor) : ℝ × (Fin num_classes → ℝ) :=
  (sigmoid (∑ k, D.wValidity k * D.convFeatures img k + D.bValidity),
    softmax (fun i => ∑ k, D.wLabel i k * D.convFeatures img k + D.bLabel i))

lemma sigmoid_mem_Icc (x : ℝ) : 0 ≤ sigmoid x ∧ sigmoid x ≤ 1 := by
  have hpos : (0 : ℝ) < 1 + Real.exp (-x) := by
    have := Real.exp_pos (-x)
    linarith
  constructor
  · exact le_of_lt (div_pos one_pos hpos)
  · rw [sigmoid, div_le_one hpos]
    have := Real.exp_pos (-x)
    linarith

lemma softmax_nonneg {m : ℕ} (z : Fin m → ℝ) (i : Fin m) : 0 ≤ softmax z i := by
  apply div_nonneg (le_of_lt (Real.exp_pos _))
  exact Finset.sum_nonneg fun j _ => le_of_lt (Real.exp_pos _)

lemma softmax_sum_one {m : ℕ} (hm : 0 < m) (z : Fin m → ℝ) :
    ∑ i, softmax z i = 1 := by
  have hpos : (0 : ℝ) < ∑ j, Real.exp (z j) := by
    apply Finset.sum_pos (fun j _ => Real.exp_pos _)
    exact ⟨⟨0, hm⟩, Finset.mem_univ _⟩
  unfold softmax
  rw [← Finset.sum_div]
  exact div_self (ne_of_gt hpos)

/-- C6: the discriminator maps a single 28x28x1 image to a scalar validity
score in the interval from 0 to 1 (sigmoid) and a probability distribution
over exactly num_classes = 10 digit classes (softmax): every component is
nonnegative and the ten components sum to 1, so it predicts a class label in
addition to the real/fake validity. -/
theorem discriminator_output_structure (featDim : ℕ) (D : Discriminator featDim)
    (img : ImgTensor) :
    0 ≤ (discriminatorForward D img).1 ∧ (discriminatorForward D img).1 ≤ 1 ∧
    (∀ i, 0 ≤ (discriminatorForward D img).2 i) ∧
    (∑ i, (discriminatorForward D img).2 i = 1) ∧
    num_classes = 10 ∧ acganInit.num_classes = 10 := by
  simp only [discriminatorForward]
  refine ⟨(sigmoid_mem_Icc _).1, (sigmoid_mem_Icc _).2,
    fun i => softmax_nonneg _ i, softmax_sum_one (by norm_num [num_classes]) _,
    rfl, rfl⟩
